import Mathlib

/-!
Verification of the YAML-backed keyword retriever (`rag_system/retriever.py`).

The embedding models strings as `List Char`; Python `str.lower` is modelled by
`Char.toLower` on each character, Python `str.split()` (no argument) by
`splitWs`, Python substring membership (`t in s`) by `isSubstr`, and Python
`s.count(t)` (non-overlapping left-to-right substring count, for non-empty `t`)
by `countOcc`.  Integer scores are `Nat`; the source casts the score to a float
(`float(score)`), which is exact on these values, so `similarity_score` is kept
as `Nat`.  The `similarity_threshold` parameter is carried as `Option Float`
exactly because the source accepts it and never reads it.
-/

set_option linter.unusedVariables false

namespace Frontdesk

/-- Whitespace test used by Python `str.split()` / `str.strip()`
(restricted to the ASCII whitespace characters). -/
def isWs (c : Char) : Bool :=
  c == ' ' || c == '\t' || c == '\n' || c == '\x0b' || c == '\x0c' || c == '\r'

/-- `lowerL s` models `s.lower()`. -/
def lowerL (s : List Char) : List Char := s.map Char.toLower

/-- Helper for `splitWs`: scan the characters, accumulating the current
word (reversed) in `acc`, emitting it when whitespace or the end is reached. -/
def splitWsAux : List Char → List Char → List (List Char)
  | [], acc => if acc.isEmpty then [] else [acc.reverse]
  | c :: rest, acc =>
    if isWs c then
      if acc.isEmpty then splitWsAux rest [] else acc.reverse :: splitWsAux rest []
    else splitWsAux rest (c :: acc)

/-- `splitWs s` models Python `s.split()`: split on runs of whitespace,
discarding empty fragments. -/
def splitWs (s : List Char) : List (List Char) := splitWsAux s []

/-- `isSubstr p s` models Python `p in s` on strings: `p` occurs as a
contiguous substring of `s`. -/
def isSubstr (p s : List Char) : Bool := decide (p <:+: s)

/-- Helper for `countOcc`: scan left to right; `skip` counts characters still
to be consumed by the previous match (so matches do not overlap). -/
def countOccAux (p : List Char) : List Char → Nat → Nat
  | [], _ => 0
  | _ :: rest, skip + 1 => countOccAux p rest skip
  | c :: rest, 0 =>
    if p <+: (c :: rest) then 1 + countOccAux p rest (p.length - 1)
    else countOccAux p rest 0

/-- `countOcc p s` models Python `s.count(p)` for non-empty `p`: the number of
non-overlapping occurrences of `p` in `s`, scanning left to right. -/
def countOcc (p s : List Char) : Nat := countOccAux p s 0

/-- A flattened document as stored in `self.documents`
(`rag_system/retriever.py`, `_load_yaml` / `add_new_document`). -/
structure Doc where
  id : List Char
  title : List Char
  content : List Char
  metadata : List (List Char × List Char)
deriving DecidableEq

/-- An entry of the list returned by `retrieve_relevant_content`:
`{"content": ..., "metadata": ..., "similarity_score": ...}`. -/
structure ScoredDoc where
  content : List Char
  metadata : List (List Char × List Char)
  similarity_score : Nat
deriving DecidableEq

/-- Tokenization of `retrieve_relevant_content` (lines 95-96):
`q = query.lower()`, `tokens = [t for t in q.split() if len(t) > 2]`. -/
def tokensOf (query : List Char) : List (List Char) :=
  (splitWs (lowerL query)).filter (fun tok => 2 < tok.length)

/-- Per-document score of `retrieve_relevant_content` (lines 99-110): for each
token add `content.count(t)` when `t in content`, then for each token add a
flat `2` when `t in title`; both on the lower-cased fields. -/
def scoreDoc (tokens : List (List Char)) (d : Doc) : Nat :=
  tokens.foldl
    (fun acc tok => if isSubstr tok (lowerL d.title) then acc + 2 else acc)
    (tokens.foldl
      (fun acc tok =>
        if isSubstr tok (lowerL d.content) then acc + countOcc tok (lowerL d.content)
        else acc)
      0)

/-- The scored-result record built at line 113 of the source. -/
def toScored (tokens : List (List Char)) (d : Doc) : ScoredDoc :=
  ⟨d.content, d.metadata, scoreDoc tokens d⟩

/-- The `scored` list of `retrieve_relevant_content` (lines 98-113): one entry
per document whose score is positive, in document order. -/
def scoredOf (docs : List Doc) (tokens : List (List Char)) : List ScoredDoc :=
  docs.filterMap (fun d =>
    if 0 < scoreDoc tokens d then some (toScored tokens d) else none)

/-- Comparison used by `scored.sort(key=lambda x: x["similarity_score"], reverse=True)`:
`a` may precede `b` exactly when `a`'s score is at least `b`'s. -/
def scoredLE (a b : ScoredDoc) : Bool :=
  decide (b.similarity_score ≤ a.similarity_score)

/-- Python's `list.sort(key=..., reverse=True)` is a stable descending sort;
modelled with the (stable) `List.mergeSort`. -/
def sortDesc (l : List ScoredDoc) : List ScoredDoc := l.mergeSort scoredLE

/-- `top_k = top_k or self.config.RAG_TOP_K` (line 93): `None` and `0` are
falsy in Python, so both are replaced by the configured default. -/
def effTopK (ragTopK : Nat) : Option Nat → Nat
  | none => ragTopK
  | some n => if n = 0 then ragTopK else n

/-- Fallback record (lines 118-121): a document with `similarity_score` `0.0`. -/
def fallbackDoc (d : Doc) : ScoredDoc := ⟨d.content, d.metadata, 0⟩

/-- `RAGRetriever.retrieve_relevant_content` (lines 87-126).  The engine state
is the document list `docs` and the configured default `ragTopK`; `top_k` is
`Option Nat` (`none` = argument omitted / `None`), and `simThreshold` is the
accepted-but-unread `similarity_threshold` argument. -/
def retrieve (docs : List Doc) (ragTopK : Nat) (query : List Char)
    (top_k : Option Nat) (simThreshold : Option Float) : List ScoredDoc :=
  if query.all isWs then []
  else
    let k := effTopK ragTopK top_k
    let tokens := tokensOf query
    let scored := scoredOf docs tokens
    if scored.isEmpty then (docs.take k).map fallbackDoc
    else (sortDesc scored).take k

/-- A node of the parsed YAML structure, as `yaml.safe_load` hands it to
`_load_yaml.recurse`: a mapping (ordered key/value entries, keys already
stringified), a sequence, or a scalar carrying its Python `str()` form. -/
inductive Node where
  | scalar (s : List Char)
  | seq (items : List Node)
  | map (entries : List (List Char × Node))

/-- `" / ".join(path_parts)` (lines 58 and 62). -/
def joinPath (parts : List (List Char)) : List Char :=
  List.intercalate (" / ".data) parts

/-- Rendering of a sequence element by Python `str(item)` (line 57).  Scalars
carry their `str()` form; for nested containers the exact Python repr
(quoting of nested strings) is abstracted by a bracketed rendering, which no
claim depends on. -/
def strOf : Node → List Char
  | .scalar s => s
  | .seq items =>
      "[".data
        ++ List.intercalate (", ".data) (items.attach.map (fun x => strOf x.1))
        ++ "]".data
  | .map entries =>
      "\x7b".data
        ++ List.intercalate (", ".data)
          (entries.attach.map (fun kv => kv.1.1 ++ ": ".data ++ strOf kv.1.2))
        ++ "\x7d".data
decreasing_by
  all_goals simp only [Node.seq.sizeOf_spec, Node.map.sizeOf_spec]
  · have := List.sizeOf_lt_of_mem x.2
    omega
  · have h1 := List.sizeOf_lt_of_mem kv.2
    have h2 : sizeOf kv.1.2 < sizeOf kv.1 := by
      obtain ⟨⟨a, b⟩, hk⟩ := kv
      simp
    omega

mutual

/-- `_load_yaml.recurse` (lines 51-63): depth-first flattening.  A mapping
recurses into each entry extending the path; a sequence is a leaf whose
content is the newline-joined `str()` of its items; a scalar is a leaf. -/
def flattenNode : Node → List (List Char) → List (List Char × List Char)
  | .map entries, pathParts => flattenEntries entries pathParts
  | .seq items, pathParts =>
      [(joinPath pathParts, List.intercalate ("\n".data) (items.map strOf))]
  | .scalar s, pathParts => [(joinPath pathParts, s)]

/-- The `for k, v in node.items(): recurse(v, path_parts + [str(k)])` loop. -/
def flattenEntries : List (List Char × Node) → List (List Char) → List (List Char × List Char)
  | [], _ => []
  | kv :: rest, pathParts =>
      flattenNode kv.2 (pathParts ++ [kv.1]) ++ flattenEntries rest pathParts

end

/-- Top level of `_load_yaml` (lines 65-70): a mapping root starts one
traversal per top-level key; any other root is traversed under the synthetic
path segment `"root"`. -/
def flattenTop : Node → List (List Char × List Char)
  | .map entries => flattenEntries entries []
  | d => flattenNode d ["root".data]

/-- `"yaml_<i>"` identifiers assigned at load time (line 75). -/
def yamlId (i : Nat) : List Char := "yaml_".data ++ (Nat.repr i).data

/-- `"custom_<n>"` identifiers assigned by `add_new_document` (line 141). -/
def customId (n : Nat) : List Char := "custom_".data ++ (Nat.repr n).data

/-- The document record appended for flattened pair number `i` (lines 73-79):
sequential ids and `{"source": <file name>, "path": <title>}` metadata. -/
def mkYamlDoc (nm : List Char) (i : Nat) (td : List Char × List Char) : Doc :=
  ⟨yamlId i, td.1, td.2, [("source".data, nm), ("path".data, td.1)]⟩

/-- The `for i, doc in enumerate(flat_docs)` numbering loop (lines 73-79). -/
def numberDocs (nm : List Char) (i : Nat) : List (List Char × List Char) → List Doc
  | [] => []
  | td :: rest => mkYamlDoc nm i td :: numberDocs nm (i + 1) rest

/-- Outcome of locating, opening and parsing the YAML source file at the time
`_load_yaml` runs: the file may be missing (line 40), reading or parsing may
raise (caught at lines 83-85), or parsing yields a structure. -/
inductive LoadOutcome where
  | missing
  | readError
  | ok (data : Node)

/-- `RAGRetriever._load_yaml` (lines 37-85) as a function of the prior
document list (the method appends to `self.documents`): a missing file sets
the list to `[]` (line 42); any read/parse exception is caught and sets the
list to `[]` (lines 83-85); otherwise the flattened, numbered documents are
appended to the existing list. -/
def loadYaml (src : LoadOutcome) (nm : List Char) (prev : List Doc) : List Doc :=
  match src with
  | .missing => []
  | .readError => []
  | .ok data => prev ++ numberDocs nm 0 (flattenTop data)

/-- `RAGRetriever.refresh_vector_store` (lines 128-136): clear the document
list, re-run `_load_yaml`, return `True`; the `except` branch returning
`False` is unreachable for source failures because `_load_yaml` catches its
own exceptions (modelled exhaustively by `LoadOutcome`). -/
def refreshDocs (src : LoadOutcome) (nm : List Char) (docs : List Doc) : Bool × List Doc :=
  (true, loadYaml src nm [])

/-- `metadata.get(key, default)` on the modelled metadata mapping. -/
def metaGet (m : List (List Char × List Char)) (key deflt : List Char) : List Char :=
  match m.find? (fun kv => kv.1 == key) with
  | some kv => kv.2
  | none => deflt

/-- The document appended by `add_new_document` (lines 141-142):
id `custom_<len(documents)>`, title `metadata.get("title", new_id)`. -/
def insertedDoc (docs : List Doc) (content : List Char)
    (m : List (List Char × List Char)) : Doc :=
  ⟨customId docs.length, metaGet m ("title".data) (customId docs.length), content, m⟩

/-- `RAGRetriever.add_new_document` (lines 138-146), state effect on the
document list (it returns `True` on this path; its `except` branch is not
reachable in the model). -/
def addNewDocument (docs : List Doc) (content : List Char)
    (m : List (List Char × List Char)) : List Doc :=
  docs ++ [insertedDoc docs content m]

/-- The report returned by `identify_content_gaps` (lines 169-173). -/
structure GapReport where
  potential_gaps : List (List Char × Nat)
  gap_count : Nat
  total_queries_analyzed : Nat
deriving DecidableEq

/-- One iteration of the loop in `identify_content_gaps` (lines 164-167):
the query is flagged (with its result count) when the `top_k=3` retrieval is
empty or every result has `similarity_score == 0`. -/
def gapEntry (docs : List Doc) (ragTopK : Nat) (q : List Char) : Option (List Char × Nat) :=
  let results := retrieve docs ragTopK q (some 3) none
  if results.isEmpty || results.all (fun r => r.similarity_score == 0) then
    some (q, results.length)
  else none

/-- `RAGRetriever.identify_content_gaps` (lines 161-173). -/
def identifyGaps (docs : List Doc) (ragTopK : Nat) (qs : List (List Char)) : GapReport :=
  let low := qs.filterMap (gapEntry docs ragTopK)
  ⟨low, low.length, qs.length⟩

/-! ### Helper lemmas -/

theorem toLower_eq_self_of_isWs {c : Char} (h : isWs c = true) : Char.toLower c = c := by
  simp only [isWs, Bool.or_eq_true, beq_iff_eq] at h
  rcases h with ((((h | h) | h) | h) | h) | h <;> subst h <;> decide

theorem splitWsAux_eq_nil_of_all_ws :
    ∀ {l : List Char}, (∀ c ∈ l, isWs c = true) → splitWsAux l [] = []
  | [], _ => rfl
  | c :: rest, h => by
    have hc : isWs c = true := h c (List.mem_cons_self c rest)
    simp only [splitWsAux, hc, if_true, List.isEmpty_nil, if_pos]
    exact splitWsAux_eq_nil_of_all_ws (fun x hx => h x (List.mem_cons_of_mem c hx))

theorem tokensOf_eq_nil_of_all_ws {q : List Char} (h : q.all isWs = true) :
    tokensOf q = [] := by
  have hall : ∀ c ∈ lowerL q, isWs c = true := by
    intro c hc
    obtain ⟨c0, hc0, rfl⟩ := List.mem_map.mp hc
    have h0 := List.all_eq_true.mp h c0 hc0
    rw [toLower_eq_self_of_isWs h0]
    exact h0
  unfold tokensOf splitWs
  rw [splitWsAux_eq_nil_of_all_ws hall]
  rfl

theorem scoreDoc_nil (d : Doc) : scoreDoc [] d = 0 := rfl

theorem tokensOf_ne_nil_of_scoreDoc_pos {q : List Char} {d : Doc}
    (h : 0 < scoreDoc (tokensOf q) d) : tokensOf q ≠ [] := by
  intro he
  rw [he, scoreDoc_nil] at h
  exact Nat.lt_irrefl 0 h

theorem all_isWs_eq_false_of_scoreDoc_pos {q : List Char} {d : Doc}
    (h : 0 < scoreDoc (tokensOf q) d) : q.all isWs = false := by
  cases hw : q.all isWs with
  | false => rfl
  | true => exact absurd (tokensOf_eq_nil_of_all_ws hw) (tokensOf_ne_nil_of_scoreDoc_pos h)

theorem not_sub_of_not_sub_cons {p s : List Char} {c : Char}
    (h : ¬ p <:+: (c :: s)) : ¬ p <:+: s := by
  intro hi
  obtain ⟨u, v, huv⟩ := hi
  exact h ⟨c :: u, v, by simp [huv]⟩

theorem countOccAux_eq_zero_of_not_sub :
    ∀ {s : List Char} {p : List Char}, ¬ p <:+: s → countOccAux p s 0 = 0
  | [], p, _ => rfl
  | c :: rest, p, h => by
    have hp : ¬ p <+: (c :: rest) := by
      intro hpre
      obtain ⟨v, hv⟩ := hpre
      exact h ⟨[], v, by simp [hv]⟩
    simp only [countOccAux, if_neg hp]
    exact countOccAux_eq_zero_of_not_sub (not_sub_of_not_sub_cons h)

theorem countOcc_eq_zero_of_not_sub {p s : List Char} (h : isSubstr p s = false) :
    countOcc p s = 0 :=
  countOccAux_eq_zero_of_not_sub (by simpa [isSubstr] using h)

theorem foldl_guard_count (cs : List Char) :
    ∀ (tokens : List (List Char)) (a : Nat),
      tokens.foldl
        (fun acc tok => if isSubstr tok cs then acc + countOcc tok cs else acc) a
        = a + (tokens.map (fun tok => countOcc tok cs)).sum
  | [], a => by simp
  | tok :: rest, a => by
    by_cases h : isSubstr tok cs
    · simp only [List.foldl_cons, if_pos h, List.map_cons, List.sum_cons]
      rw [foldl_guard_count cs rest]
      omega
    · have hz : countOcc tok cs = 0 :=
        countOcc_eq_zero_of_not_sub (Bool.eq_false_iff.mpr h)
      simp only [List.foldl_cons, if_neg h, List.map_cons, List.sum_cons, hz]
      rw [foldl_guard_count cs rest]
      omega

theorem foldl_guard_two (cs : List Char) :
    ∀ (tokens : List (List Char)) (a : Nat),
      tokens.foldl (fun acc tok => if isSubstr tok cs then acc + 2 else acc) a
        = a + 2 * (tokens.filter (fun tok => isSubstr tok cs)).length
  | [], a => by simp
  | tok :: rest, a => by
    by_cases h : isSubstr tok cs
    · have hf : (tok :: rest).filter (fun t0 => isSubstr t0 cs)
          = tok :: rest.filter (fun t0 => isSubstr t0 cs) := List.filter_cons_of_pos h
      rw [List.foldl_cons, if_pos h, hf, List.length_cons, foldl_guard_two cs rest]
      omega
    · have hf : (tok :: rest).filter (fun t0 => isSubstr t0 cs)
          = rest.filter (fun t0 => isSubstr t0 cs) := List.filter_cons_of_neg h
      rw [List.foldl_cons, if_neg h, hf, foldl_guard_two cs rest]

theorem scoreDoc_eq (tokens : List (List Char)) (d : Doc) :
    scoreDoc tokens d
      = (tokens.map (fun tok => countOcc tok (lowerL d.content))).sum
        + 2 * (tokens.filter (fun tok => isSubstr tok (lowerL d.title))).length := by
  unfold scoreDoc
  rw [foldl_guard_two, foldl_guard_count]
  omega

theorem scoreDoc_eq_zero_of_nomatch {tokens : List (List Char)} {d : Doc}
    (h : ∀ tok ∈ tokens,
      isSubstr tok (lowerL d.content) = false ∧ isSubstr tok (lowerL d.title) = false) :
    scoreDoc tokens d = 0 := by
  rw [scoreDoc_eq]
  have h1 : ∀ tok ∈ tokens, countOcc tok (lowerL d.content) = 0 := fun tok ht =>
    countOcc_eq_zero_of_not_sub (h tok ht).1
  have h2 : (tokens.filter (fun tok => isSubstr tok (lowerL d.title))).length = 0 := by
    rw [List.length_eq_zero, List.filter_eq_nil_iff]
    intro tok ht
    simp [(h tok ht).2]
  rw [h2]
  have h3 : (tokens.map (fun tok => countOcc tok (lowerL d.content))).sum = 0 := by
    rw [List.sum_eq_zero]
    intro x hx
    obtain ⟨tok, ht, rfl⟩ := List.mem_map.mp hx
    exact h1 tok ht
  omega

theorem scoredOf_eq_nil_of_all_zero :
    ∀ {docs : List Doc} {tokens : List (List Char)},
      (∀ d ∈ docs, scoreDoc tokens d = 0) → scoredOf docs tokens = []
  | [], _, _ => rfl
  | d :: rest, tokens, h => by
    have hd : scoreDoc tokens d = 0 := h d (List.mem_cons_self d rest)
    simp only [scoredOf, List.filterMap_cons, hd]
    rw [if_neg (by omega)]
    exact scoredOf_eq_nil_of_all_zero (fun x hx => h x (List.mem_cons_of_mem d hx))

theorem scoredOf_eq_filter :
    ∀ (docs : List Doc) (tokens : List (List Char)),
      scoredOf docs tokens
        = (docs.filter (fun d => decide (0 < scoreDoc tokens d))).map (toScored tokens)
  | [], _ => rfl
  | d :: rest, tokens => by
    by_cases h : 0 < scoreDoc tokens d
    · simp only [scoredOf, List.filterMap_cons, if_pos h, List.filter_cons,
        decide_eq_true h, List.map_cons]
      exact congrArg _ (scoredOf_eq_filter rest tokens)
    · simp only [scoredOf, List.filterMap_cons, if_neg h, List.filter_cons,
        decide_eq_false h]
      exact scoredOf_eq_filter rest tokens

theorem scoredLE_trans (a b c : ScoredDoc) :
    scoredLE a b → scoredLE b c → scoredLE a c := by
  simp only [scoredLE, decide_eq_true_eq]
  omega

theorem scoredLE_total (a b : ScoredDoc) : scoredLE a b || scoredLE b a := by
  simp only [scoredLE, Bool.or_eq_true, decide_eq_true_eq]
  omega

theorem retrieve_ws_nil {docs : List Doc} {K : Nat} {q : List Char}
    {kOpt : Option Nat} {thr : Option Float} (h : q.all isWs = true) :
    retrieve docs K q kOpt thr = [] := by
  unfold retrieve
  rw [if_pos h]

theorem retrieve_eq_fallback {docs : List Doc} {K : Nat} {q : List Char}
    {kOpt : Option Nat} {thr : Option Float}
    (hq : q.all isWs = false)
    (hz : ∀ d ∈ docs, scoreDoc (tokensOf q) d = 0) :
    retrieve docs K q kOpt thr = (docs.take (effTopK K kOpt)).map fallbackDoc := by
  unfold retrieve
  rw [if_neg (by simp [hq])]
  show (if (scoredOf docs (tokensOf q)).isEmpty = true
        then (docs.take (effTopK K kOpt)).map fallbackDoc
        else (sortDesc (scoredOf docs (tokensOf q))).take (effTopK K kOpt))
      = (docs.take (effTopK K kOpt)).map fallbackDoc
  rw [scoredOf_eq_nil_of_all_zero hz]
  rfl

theorem mem_numberDocs {nm : List Char} {d : Doc} :
    ∀ {i : Nat} {flat : List (List Char × List Char)},
      d ∈ numberDocs nm i flat → ∃ j td, d = mkYamlDoc nm j td
  | _, [], h => absurd h (List.not_mem_nil d)
  | i, td :: rest, h => by
    rcases List.mem_cons.mp h with h1 | h2
    · exact ⟨i, td, h1⟩
    · exact mem_numberDocs h2

theorem yamlId_ne_customId (i n : Nat) : yamlId i ≠ customId n := by
  intro h
  have h1 : ('y' :: ("aml_".data ++ (Nat.repr i).data))
      = ('c' :: ("ustom_".data ++ (Nat.repr n).data)) := h
  simp at h1

/-! ### Claims -/

/-- C1: for every document and every query, the score computed by
`retrieve_relevant_content` equals the sum over the query's surviving tokens
(lower-cased whitespace fragments of length > 2) of the number of
(non-overlapping) occurrences of the token as a substring of the lower-cased
content, plus a flat 2 for each token occurring as a substring of the
lower-cased title; and the scored set consists exactly of the documents with
positive total score (score-0 documents excluded), in document order. -/
theorem claim_C1_scoring (docs : List Doc) (q : List Char) :
    (∀ d : Doc,
      scoreDoc (tokensOf q) d
        = ((tokensOf q).map (fun tok => countOcc tok (lowerL d.content))).sum
          + 2 * ((tokensOf q).filter (fun tok => isSubstr tok (lowerL d.title))).length)
    ∧ scoredOf docs (tokensOf q)
        = (docs.filter (fun d => decide (0 < scoreDoc (tokensOf q) d))).map
            (toScored (tokensOf q)) :=
  ⟨fun d => scoreDoc_eq (tokensOf q) d, scoredOf_eq_filter docs (tokensOf q)⟩

/-- C2 fails as stated: (i) the all-whitespace query `"  "` has no surviving
token, so its tokens vacuously match no document, yet `retrieve` returns the
empty list (0 documents) instead of `min(1, 1) = 1` fallback documents; and
(ii) for `top_k = 0` (falsy in Python) the default `RAG_TOP_K = 5` is used,
so 1 document is returned instead of `min(0, 1) = 0`. -/
theorem claim_C2_cex :
    (tokensOf ("  ".data) = []
      ∧ (retrieve [Doc.mk ("yaml_0".data) ("t".data) ("abc".data) []] 5
            ("  ".data) (some 1) none).length
          ≠ min 1 [Doc.mk ("yaml_0".data) ("t".data) ("abc".data) []].length)
    ∧ (tokensOf ("qqq".data) = ["qqq".data]
      ∧ ([Doc.mk ("yaml_0".data) ("t".data) ("abc".data) []].all
          (fun d => !(isSubstr ("qqq".data) (lowerL d.content)
            || isSubstr ("qqq".data) (lowerL d.title)))) = true
      ∧ (retrieve [Doc.mk ("yaml_0".data) ("t".data) ("abc".data) []] 5
            ("qqq".data) (some 0) none).length
          ≠ min 0 [Doc.mk ("yaml_0".data) ("t".data) ("abc".data) []].length) := by
  decide

/-- C2 (amended): for every document set, every `top_k` value `k ≥ 1`, and
every query that is not empty/whitespace-only and whose surviving tokens
(length > 2) match no document's content or title as a substring,
`retrieve(q, top_k = k)` returns exactly `min(k, |DocumentSet|)` documents,
namely the first `k` documents of the set in stored order, each with
similarity score 0. -/
theorem claim_C2_fallback_law (docs : List Doc) (K : Nat) (q : List Char)
    (k : Nat) (thr : Option Float)
    (hq : q.all isWs = false) (hk : 1 ≤ k)
    (hnm : ∀ tok ∈ tokensOf q, ∀ d ∈ docs,
        isSubstr tok (lowerL d.content) = false
          ∧ isSubstr tok (lowerL d.title) = false) :
    retrieve docs K q (some k) thr = (docs.take k).map fallbackDoc
      ∧ (retrieve docs K q (some k) thr).length = min k docs.length
      ∧ ∀ r ∈ retrieve docs K q (some k) thr, r.similarity_score = 0 := by
  have hz : ∀ d ∈ docs, scoreDoc (tokensOf q) d = 0 := fun d hd =>
    scoreDoc_eq_zero_of_nomatch (fun tok ht => hnm tok ht d hd)
  have hek : effTopK K (some k) = k := by
    show (if k = 0 then K else k) = k
    rw [if_neg (by omega)]
  have h1 : retrieve docs K q (some k) thr = (docs.take k).map fallbackDoc := by
    rw [retrieve_eq_fallback hq hz, hek]
  refine ⟨h1, ?_, ?_⟩
  · rw [h1, List.length_map, List.length_take]
  · intro r hr
    rw [h1] at hr
    obtain ⟨d, hd, rfl⟩ := List.mem_map.mp hr
    rfl

theorem claim_C2_fallback_law_witness :
    (("qqq".data).all isWs = false ∧ 1 ≤ 1
      ∧ ∀ tok ∈ tokensOf ("qqq".data),
          ∀ d ∈ [Doc.mk ("yaml_0".data) ("t".data) ("abc".data) []],
            isSubstr tok (lowerL d.content) = false
              ∧ isSubstr tok (lowerL d.title) = false)
    ∧ retrieve [Doc.mk ("yaml_0".data) ("t".data) ("abc".data) []] 5
          ("qqq".data) (some 1) none
        = ([Doc.mk ("yaml_0".data) ("t".data) ("abc".data) []].take 1).map fallbackDoc :=
  ⟨⟨by decide, by decide, by decide⟩,
    (claim_C2_fallback_law [Doc.mk ("yaml_0".data) ("t".data) ("abc".data) []] 5
      ("qqq".data) 1 none (by decide) (by decide) (by decide)).1⟩

/-- C4 fails as stated: a failure to read or parse the source during the
reload is caught inside `_load_yaml` itself, so `refresh_vector_store`
returns `True`, not `False` (the engine is still left with an empty set). -/
theorem claim_C4_cex :
    (refreshDocs LoadOutcome.readError ("ref.yaml".data)
        [Doc.mk ("yaml_0".data) ("t".data) ("c".data) []]).1 ≠ false := by
  decide

/-- C4 (amended): refresh raises no exception and its result never depends on
the prior document set (never the stale set, never a mix); a failure to read
or parse the source during the reload is caught inside the load step, leaving
the engine with an empty Document Set — but refresh then returns `true`, not
`false`, since the `except` branch of `refresh_vector_store` is unreachable
for such failures. -/
theorem claim_C4_refresh (src : LoadOutcome) (nm : List Char)
    (prev prev' : List Doc) :
    (refreshDocs src nm prev).1 = true
      ∧ (refreshDocs src nm prev).2 = (refreshDocs src nm prev').2
      ∧ ((src = LoadOutcome.missing ∨ src = LoadOutcome.readError) →
          (refreshDocs src nm prev).2 = []) := by
  refine ⟨rfl, rfl, ?_⟩
  rintro (rfl | rfl) <;> rfl

theorem claim_C4_refresh_witness :
    (LoadOutcome.readError = LoadOutcome.missing
      ∨ LoadOutcome.readError = LoadOutcome.readError)
    ∧ (refreshDocs LoadOutcome.readError ("ref.yaml".data)
        [Doc.mk ("yaml_0".data) ("t".data) ("c".data) []]).2 = [] :=
  ⟨Or.inr rfl,
    (claim_C4_refresh LoadOutcome.readError ("ref.yaml".data)
      [Doc.mk ("yaml_0".data) ("t".data) ("c".data) []] []).2.2 (Or.inr rfl)⟩

/-- C5 fails as stated: an empty sequence at the root does NOT yield zero
documents — `recurse([], ["root"])` hits the list branch and emits one
document (title `"root"`, empty content). -/
theorem claim_C5_cex :
    (loadYaml (LoadOutcome.ok (Node.seq [])) ("ref.yaml".data) []).length ≠ 0 := by
  decide

/-- C5 (amended): an empty mapping at the root yields zero documents, but an
empty sequence at the root yields exactly one document, titled `"root"` with
empty content. -/
theorem claim_C5_flatten_empty (nm : List Char) :
    loadYaml (LoadOutcome.ok (Node.map [])) nm [] = []
      ∧ loadYaml (LoadOutcome.ok (Node.seq [])) nm []
          = [mkYamlDoc nm 0 ("root".data, [])] :=
  ⟨rfl, rfl⟩

/-- C7: the `similarity_threshold` argument of `retrieve_relevant_content` is
never read, so two calls differing only in it return identical results. -/
theorem claim_C7_threshold_noop (docs : List Doc) (K : Nat) (q : List Char)
    (kOpt : Option Nat) (thr1 thr2 : Option Float) :
    retrieve docs K q kOpt thr1 = retrieve docs K q kOpt thr2 := rfl

/-- C8: manual insertion is never persisted across a refresh — refreshing
after `add_new_document` yields the same document set as refreshing alone,
and the inserted document (whose id lives in the `custom_` namespace) is
absent from the post-refresh set (all of whose ids are `yaml_` ids). -/
theorem claim_C8_insert_not_persisted (src : LoadOutcome) (nm : List Char)
    (docs : List Doc) (content : List Char) (m : List (List Char × List Char)) :
    (refreshDocs src nm (addNewDocument docs content m)).2
        = (refreshDocs src nm docs).2
      ∧ insertedDoc docs content m ∉ (refreshDocs src nm (addNewDocument docs content m)).2 := by
  refine ⟨rfl, ?_⟩
  intro hmem
  cases src with
  | missing => exact absurd hmem (List.not_mem_nil _)
  | readError => exact absurd hmem (List.not_mem_nil _)
  | ok data =>
    have hmem2 : insertedDoc docs content m ∈ numberDocs nm 0 (flattenTop data) := by
      simpa [refreshDocs, loadYaml] using hmem
    obtain ⟨j, td, hEq⟩ := mem_numberDocs hmem2
    have hid : customId docs.length = yamlId j := congrArg Doc.id hEq
    exact yamlId_ne_customId j docs.length hid.symm

theorem claim_C8_insert_not_persisted_witness :
    insertedDoc [] ("test content".data) [("title".data, "t".data)]
      ∉ (refreshDocs (LoadOutcome.ok (Node.scalar ("x".data))) ("ref.yaml".data)
          (addNewDocument [] ("test content".data) [("title".data, "t".data)])).2 :=
  (claim_C8_insert_not_persisted (LoadOutcome.ok (Node.scalar ("x".data)))
    ("ref.yaml".data) [] ("test content".data) [("title".data, "t".data)]).2

theorem length_sortDesc (l : List ScoredDoc) : (sortDesc l).length = l.length :=
  List.length_mergeSort l

/-- C3: whenever at least one document scores above 0, `retrieve` returns the
scored documents sorted by score descending, truncated to the first (effective)
`top_k`; the sort is stable, so two documents with equal positive scores keep
their relative order from the document set. -/
theorem claim_C3_ranking (docs : List Doc) (K : Nat) (q : List Char)
    (kOpt : Option Nat) (thr : Option Float)
    (h : ∃ d ∈ docs, 0 < scoreDoc (tokensOf q) d) :
    retrieve docs K q kOpt thr
        = (sortDesc (scoredOf docs (tokensOf q))).take (effTopK K kOpt)
      ∧ (sortDesc (scoredOf docs (tokensOf q))).Pairwise
          (fun a b => b.similarity_score ≤ a.similarity_score)
      ∧ ∀ d1 d2 : Doc, [d1, d2].Sublist docs →
          scoreDoc (tokensOf q) d1 = scoreDoc (tokensOf q) d2 →
          0 < scoreDoc (tokensOf q) d1 →
          [toScored (tokensOf q) d1, toScored (tokensOf q) d2].Sublist
            (sortDesc (scoredOf docs (tokensOf q))) := by
  obtain ⟨d, hd, hpos⟩ := h
  have hq : q.all isWs = false := all_isWs_eq_false_of_scoreDoc_pos hpos
  have hmem : toScored (tokensOf q) d ∈ scoredOf docs (tokensOf q) :=
    List.mem_filterMap.mpr ⟨d, hd, by rw [if_pos hpos]⟩
  have hne : (scoredOf docs (tokensOf q)).isEmpty = false := by
    cases hsc : scoredOf docs (tokensOf q) with
    | nil =>
      rw [hsc] at hmem
      exact absurd hmem (List.not_mem_nil _)
    | cons a l => rfl
  refine ⟨?_, ?_, ?_⟩
  · unfold retrieve
    rw [if_neg (by simp [hq])]
    show (if (scoredOf docs (tokensOf q)).isEmpty = true
          then (docs.take (effTopK K kOpt)).map fallbackDoc
          else (sortDesc (scoredOf docs (tokensOf q))).take (effTopK K kOpt))
        = (sortDesc (scoredOf docs (tokensOf q))).take (effTopK K kOpt)
    rw [hne]
    simp
  · have hp := List.sorted_mergeSort scoredLE_trans scoredLE_total
      (scoredOf docs (tokensOf q))
    exact hp.imp (fun hab => by simpa [scoredLE] using hab)
  · intro d1 d2 hsub heq hpos1
    have hpos2 : 0 < scoreDoc (tokensOf q) d2 := heq ▸ hpos1
    have hsub2 : [toScored (tokensOf q) d1, toScored (tokensOf q) d2].Sublist
        (scoredOf docs (tokensOf q)) := by
      have h2 := hsub.filterMap
        (fun d0 => if 0 < scoreDoc (tokensOf q) d0
          then some (toScored (tokensOf q) d0) else none)
      simpa [scoredOf, List.filterMap_cons, hpos1, hpos2] using h2
    have hpw : [toScored (tokensOf q) d1, toScored (tokensOf q) d2].Pairwise
        (fun a b => scoredLE a b = true) := by
      constructor
      · intro b hb
        rw [List.mem_singleton] at hb
        subst hb
        simp [scoredLE, toScored, heq]
      · exact List.pairwise_singleton _ _
    exact List.sublist_mergeSort scoredLE_trans scoredLE_total hpw hsub2

theorem claim_C3_ranking_witness :
    (∃ d ∈ [Doc.mk ("yaml_0".data) ("fee".data) ("fee fie".data) []],
        0 < scoreDoc (tokensOf ("fee".data)) d)
    ∧ retrieve [Doc.mk ("yaml_0".data) ("fee".data) ("fee fie".data) []] 5
          ("fee".data) (some 2) none
        = (sortDesc (scoredOf [Doc.mk ("yaml_0".data) ("fee".data) ("fee fie".data) []]
            (tokensOf ("fee".data)))).take (effTopK 5 (some 2)) :=
  ⟨by decide,
    (claim_C3_ranking [Doc.mk ("yaml_0".data) ("fee".data) ("fee fie".data) []] 5
      ("fee".data) (some 2) none (by decide)).1⟩

theorem gapEntry_eq_some_iff {docs : List Doc} {K : Nat} {q : List Char}
    {e : List Char × Nat} :
    gapEntry docs K q = some e ↔
      (e = (q, (retrieve docs K q (some 3) none).length)
        ∧ (retrieve docs K q (some 3) none = []
            ∨ ∀ r ∈ retrieve docs K q (some 3) none, r.similarity_score = 0)) := by
  show (if ((retrieve docs K q (some 3) none).isEmpty
        || (retrieve docs K q (some 3) none).all (fun r => r.similarity_score == 0)) = true
      then some (q, (retrieve docs K q (some 3) none).length)
      else none) = some e ↔ _
  by_cases hc : ((retrieve docs K q (some 3) none).isEmpty
      || (retrieve docs K q (some 3) none).all (fun r => r.similarity_score == 0)) = true
  · rw [if_pos hc]
    have hc2 : (retrieve docs K q (some 3) none).isEmpty = true
        ∨ (retrieve docs K q (some 3) none).all
            (fun r => r.similarity_score == 0) = true := by
      simpa using hc
    have hcond : retrieve docs K q (some 3) none = []
        ∨ ∀ r ∈ retrieve docs K q (some 3) none, r.similarity_score = 0 := by
      rcases hc2 with h | h
      · exact Or.inl (List.isEmpty_iff.mp h)
      · exact Or.inr (fun r hr => by simpa using List.all_eq_true.mp h r hr)
    constructor
    · intro h
      injection h with h2
      exact ⟨h2.symm, hcond⟩
    · rintro ⟨rfl, -⟩
      rfl
  · rw [if_neg hc]
    refine iff_of_false (by simp) ?_
    rintro ⟨he, hcond⟩
    apply hc
    rcases hcond with hnil | hall
    · simp [hnil]
    · simp only [Bool.or_eq_true]
      exact Or.inr (List.all_eq_true.mpr (fun r hr => by simp [hall r hr]))

/-- C6: `identify_content_gaps` runs each query through `retrieve` with
`top_k = 3` and flags it exactly when the result list is empty or every
result has similarity score 0 (recording the query with its result count);
`total_queries_analyzed` is the number of input queries and `gap_count` the
number of flagged ones; in particular a query with no matching tokens over
any document set yields `gap_count = 1` with that query listed. -/
theorem claim_C6_gap_analysis :
    (∀ (docs : List Doc) (K : Nat) (qs : List (List Char)),
        (identifyGaps docs K qs).total_queries_analyzed = qs.length
        ∧ (identifyGaps docs K qs).gap_count
            = (identifyGaps docs K qs).potential_gaps.length
        ∧ ∀ e : List Char × Nat,
            e ∈ (identifyGaps docs K qs).potential_gaps ↔
              (e.1 ∈ qs ∧ e.2 = (retrieve docs K e.1 (some 3) none).length
                ∧ (retrieve docs K e.1 (some 3) none = []
                    ∨ ∀ r ∈ retrieve docs K e.1 (some 3) none,
                        r.similarity_score = 0)))
    ∧ ∀ (docs : List Doc) (K : Nat) (q : List Char),
        (∀ tok ∈ tokensOf q, ∀ d ∈ docs,
            isSubstr tok (lowerL d.content) = false
              ∧ isSubstr tok (lowerL d.title) = false) →
        (identifyGaps docs K [q]).gap_count = 1
          ∧ (identifyGaps docs K [q]).potential_gaps.map Prod.fst = [q] := by
  constructor
  · intro docs K qs
    refine ⟨rfl, rfl, ?_⟩
    intro e
    show e ∈ qs.filterMap (gapEntry docs K) ↔ _
    rw [List.mem_filterMap]
    constructor
    · rintro ⟨q', hq', hsome⟩
      obtain ⟨he, hcond⟩ := gapEntry_eq_some_iff.mp hsome
      subst he
      exact ⟨hq', rfl, hcond⟩
    · rintro ⟨h1, h2, h3⟩
      refine ⟨e.1, h1, gapEntry_eq_some_iff.mpr ⟨?_, h3⟩⟩
      cases e
      simp only [Prod.mk.injEq, true_and]
      exact h2
  · intro docs K q hnm
    have hz : ∀ d ∈ docs, scoreDoc (tokensOf q) d = 0 := fun d hd =>
      scoreDoc_eq_zero_of_nomatch (fun tok ht => hnm tok ht d hd)
    have hsome : gapEntry docs K q
        = some (q, (retrieve docs K q (some 3) none).length) := by
      apply gapEntry_eq_some_iff.mpr
      refine ⟨rfl, ?_⟩
      cases hw : q.all isWs with
      | true => exact Or.inl (retrieve_ws_nil hw)
      | false =>
        right
        intro r hr
        rw [retrieve_eq_fallback hw hz] at hr
        obtain ⟨d, hd, rfl⟩ := List.mem_map.mp hr
        rfl
    have hlist : [q].filterMap (gapEntry docs K)
        = [(q, (retrieve docs K q (some 3) none).length)] := by
      simp [List.filterMap_cons, hsome]
    constructor
    · show ([q].filterMap (gapEntry docs K)).length = 1
      rw [hlist]
      rfl
    · show ([q].filterMap (gapEntry docs K)).map Prod.fst = [q]
      rw [hlist]
      rfl

theorem claim_C6_gap_analysis_witness :
    (∀ tok ∈ tokensOf ("qqq".data),
        ∀ d ∈ [Doc.mk ("yaml_0".data) ("t".data) ("abc".data) []],
          isSubstr tok (lowerL d.content) = false
            ∧ isSubstr tok (lowerL d.title) = false)
    ∧ (identifyGaps [Doc.mk ("yaml_0".data) ("t".data) ("abc".data) []] 5
        [("qqq".data)]).gap_count = 1 :=
  ⟨by decide,
    (claim_C6_gap_analysis.2 [Doc.mk ("yaml_0".data) ("t".data) ("abc".data) []] 5
      ("qqq".data) (by decide)).1⟩

/-- C9: a non-whitespace query all of whose whitespace-delimited fragments
have length ≤ 2 is not treated like an empty query: no token survives, so
`retrieve` returns the no-match fallback (first effective-`top_k` documents,
score 0) — non-empty whenever the set is non-empty and the effective `top_k`
is at least 1 — whereas an empty or whitespace-only query returns `[]`. -/
theorem claim_C9_short_token_query (docs : List Doc) (K : Nat) (q : List Char)
    (kOpt : Option Nat) (thr : Option Float)
    (hq : q.all isWs = false)
    (hshort : ∀ tok ∈ splitWs (lowerL q), tok.length ≤ 2) :
    retrieve docs K q kOpt thr = (docs.take (effTopK K kOpt)).map fallbackDoc
      ∧ (docs ≠ [] → 1 ≤ effTopK K kOpt → retrieve docs K q kOpt thr ≠ [])
      ∧ ∀ q' : List Char, q'.all isWs = true → retrieve docs K q' kOpt thr = [] := by
  have htok : tokensOf q = [] := by
    unfold tokensOf
    rw [List.filter_eq_nil_iff]
    intro tok ht
    have h2 := hshort tok ht
    simp only [decide_eq_true_eq]
    omega
  have hz : ∀ d ∈ docs, scoreDoc (tokensOf q) d = 0 := by
    intro d hd
    rw [htok]
    rfl
  refine ⟨retrieve_eq_fallback hq hz, ?_, fun q' hq' => retrieve_ws_nil hq'⟩
  intro hne hk
  rw [retrieve_eq_fallback hq hz]
  intro hcontra
  have hlen := congrArg List.length hcontra
  rw [List.length_map, List.length_take, List.length_nil] at hlen
  have hd0 : docs.length ≠ 0 := fun h0 => hne (List.length_eq_zero.mp h0)
  omega

theorem claim_C9_short_token_query_witness :
    (("ab cd".data).all isWs = false
      ∧ ∀ tok ∈ splitWs (lowerL ("ab cd".data)), tok.length ≤ 2)
    ∧ retrieve [Doc.mk ("yaml_0".data) ("t".data) ("abc".data) []] 5
          ("ab cd".data) none none
        = ([Doc.mk ("yaml_0".data) ("t".data) ("abc".data) []].take
            (effTopK 5 none)).map fallbackDoc :=
  ⟨⟨by decide, by decide⟩,
    (claim_C9_short_token_query [Doc.mk ("yaml_0".data) ("t".data) ("abc".data) []] 5
      ("ab cd".data) none none (by decide) (by decide)).1⟩

/-- C10: passing `top_k = 0` does not yield zero results: `0` is falsy in
`top_k or RAG_TOP_K`, so the configured default is used exactly as if the
argument had been omitted; over a non-empty document set (with a non-empty
query and a positive default) the call returns between 1 and `RAG_TOP_K`
documents rather than an empty sequence. -/
theorem claim_C10_topk_zero (docs : List Doc) (K : Nat) (q : List Char)
    (thr : Option Float) :
    retrieve docs K q (some 0) thr = retrieve docs K q none thr
      ∧ (q.all isWs = false → docs ≠ [] → 1 ≤ K →
          retrieve docs K q (some 0) thr ≠ []
            ∧ (retrieve docs K q (some 0) thr).length ≤ K) := by
  refine ⟨rfl, ?_⟩
  intro hq hne hK
  have hdl : 1 ≤ docs.length := by
    cases docs with
    | nil => exact absurd rfl hne
    | cons a l => simp
  cases hsc : (scoredOf docs (tokensOf q)).isEmpty with
  | true =>
    have h1 : retrieve docs K q (some 0) thr = (docs.take K).map fallbackDoc := by
      unfold retrieve
      rw [if_neg (by simp [hq])]
      show (if (scoredOf docs (tokensOf q)).isEmpty = true
            then (docs.take (effTopK K (some 0))).map fallbackDoc
            else (sortDesc (scoredOf docs (tokensOf q))).take (effTopK K (some 0)))
          = (docs.take K).map fallbackDoc
      rw [hsc]
      rfl
    constructor
    · rw [h1]
      intro hc
      have hl := congrArg List.length hc
      rw [List.length_map, List.length_take, List.length_nil] at hl
      omega
    · rw [h1, List.length_map, List.length_take]
      omega
  | false =>
    have h1 : retrieve docs K q (some 0) thr
        = (sortDesc (scoredOf docs (tokensOf q))).take K := by
      unfold retrieve
      rw [if_neg (by simp [hq])]
      show (if (scoredOf docs (tokensOf q)).isEmpty = true
            then (docs.take (effTopK K (some 0))).map fallbackDoc
            else (sortDesc (scoredOf docs (tokensOf q))).take (effTopK K (some 0)))
          = (sortDesc (scoredOf docs (tokensOf q))).take K
      rw [hsc]
      rfl
    have hslen : 1 ≤ (scoredOf docs (tokensOf q)).length := by
      cases hs2 : scoredOf docs (tokensOf q) with
      | nil =>
        rw [hs2] at hsc
        simp at hsc
      | cons a l => simp
    constructor
    · rw [h1]
      intro hc
      have hl := congrArg List.length hc
      rw [List.length_take, length_sortDesc, List.length_nil] at hl
      omega
    · rw [h1, List.length_take, length_sortDesc]
      omega

theorem claim_C10_topk_zero_witness :
    (("abc".data).all isWs = false
      ∧ [Doc.mk ("yaml_0".data) ("t".data) ("abc".data) []] ≠ ([] : List Doc)
      ∧ 1 ≤ 2)
    ∧ retrieve [Doc.mk ("yaml_0".data) ("t".data) ("abc".data) []] 2
        ("abc".data) (some 0) none ≠ [] :=
  ⟨⟨by decide, by decide, by decide⟩,
    ((claim_C10_topk_zero [Doc.mk ("yaml_0".data) ("t".data) ("abc".data) []] 2
      ("abc".data) none).2 (by decide) (by decide) (by decide)).1⟩

end Frontdesk
